import Mathlib

/-!
Verification of the ms-files-gce transport core: a shallow embedding of
`src/monkey-patches/file.js` (getSignedUrl) and `src/index.js`
(MMResumableUpload.makeRequest, createBucket, readFile), with theorems
settling the specification claims.

JS conventions modelled explicitly: optional values are `Option`,
JS falsiness of strings/numbers is spelled out where the source relies on
it, `Math.round` on non-negative milliseconds is `(ms + 500) / 1000`,
and `Array.prototype.join` stringifies `undefined` to the empty string.
-/

namespace GCE

/-- JS truthiness of an optional string: `undefined`, `null` and `""` are
falsy; any non-empty string is truthy. -/
def jsTruthyStr (o : Option String) : Bool :=
  match o with
  | none => false
  | some s => s ≠ ""

/-- JS `a || b` for an optional string `a` against a default `b`. -/
def jsOr (o : Option String) (d : String) : String :=
  match o with
  | none => d
  | some s => if s = "" then d else s

/-- JS `Math.round(ms / 1000)` for a non-negative millisecond timestamp:
round to nearest, ties upward. Embeds line 101 of file.js. -/
def jsRound (ms : Nat) : Nat := (ms + 500) / 1000

/-- Upper-case hexadecimal digit for a value below 16. -/
def hexDigit (n : Nat) : Char :=
  if n < 10 then Char.ofNat (48 + n) else Char.ofNat (55 + n)

/-- Percent-encoding of one byte, `%XX` with upper-case hex, as produced
by JS `encodeURIComponent`. -/
def byteHex (b : Nat) : String :=
  String.mk ['%', hexDigit (b / 16 % 16), hexDigit (b % 16)]

/-- UTF-8 byte sequence of a Unicode code point. -/
def utf8Bytes (n : Nat) : List Nat :=
  if n < 0x80 then [n]
  else if n < 0x800 then
    [0xC0 + n / 0x40, 0x80 + n % 0x40]
  else if n < 0x10000 then
    [0xE0 + n / 0x1000, 0x80 + n / 0x40 % 0x40, 0x80 + n % 0x40]
  else
    [0xF0 + n / 0x40000, 0x80 + n / 0x1000 % 0x40, 0x80 + n / 0x40 % 0x40, 0x80 + n % 0x40]

/-- Characters `encodeURIComponent` leaves unescaped: alphanumerics and
`- _ . ! ~ * ( )` together with the single-quote character. -/
def uriUnreserved (c : Char) : Bool :=
  c.isAlpha || c.isDigit ||
    c = '-' || c = '_' || c = '.' || c = '!' || c = '~' || c = '*' ||
    c = '\'' || c = '(' || c = ')'

/-- JS `encodeURIComponent`: unreserved characters pass through, every
other character is UTF-8 encoded and each byte emitted as `%XX`. -/
def encodeURIComponent (s : String) : String :=
  s.data.foldl
    (fun acc c =>
      if uriUnreserved c then acc.push c
      else (utf8Bytes c.toNat).foldl (fun a b => a ++ byteHex b) acc)
    ""

/-! Embedding of `File.prototype.getSignedUrl` (file.js lines 99-192). -/

/-- Credentials returned by the credential provider; either field may be
absent or empty, which the source treats as missing. -/
structure Credentials where
  private_key : Option String
  client_email : Option String
deriving DecidableEq, Repr

/-- The receiver file object: object name, bucket name and the optional
target generation read at line 116 of file.js. -/
structure FileCtx where
  name : String
  bucketName : String
  generation : Option Nat
deriving DecidableEq, Repr

/-- The config argument of getSignedUrl. `expires` is milliseconds since
the epoch; extension headers are an ordered name-value mapping. -/
structure SignedUrlConfig where
  action : String
  expires : Nat
  contentMd5 : Option String
  contentType : Option String
  extensionHeaders : Option (List (String × String))
  cname : Option String
  responseType : Option String
  promptSaveAs : Option String
  responseDisposition : Option String
deriving DecidableEq, Repr

/-- Errors getSignedUrl can surface: the synchronous expiry throw at
line 104 and the SigningError paths at lines 123 and 133. -/
inductive SignErr where
  | validation (msg : String)
  | signing (msg : String)
deriving DecidableEq, Repr

/-- Observable effects of getSignedUrl, recorded in order: consulting the
credential provider, and performing the RSA-SHA256 signing. -/
inductive SignEvent where
  | credLookup
  | sign
deriving DecidableEq, Repr

/-- Action table of file.js lines 109-113: a JS object lookup, so an
unknown action yields `undefined` (`none`), not an error. -/
def actionVerb (a : String) : Option String :=
  if a = "read" then some "GET"
  else if a = "write" then some "PUT"
  else if a = "delete" then some "DELETE"
  else none

/-- Canonicalized extension headers, file.js lines 137-146: for each
header in the insertion order of the mapping, emit the name exactly as
supplied, a colon, the value and a newline; empty when the mapping is
absent. The source applies no lowercasing and no sorting. -/
def extensionHeadersString (hs : Option (List (String × String))) : String :=
  match hs with
  | none => ""
  | some l => l.foldl (fun acc p => acc ++ p.1 ++ ":" ++ p.2 ++ "\n") ""

/-- The string passed to `sign.update` at file.js lines 149-155: five
fields joined by newlines, where an `undefined` verb is stringified to
the empty string by `Array.prototype.join`. -/
def canonicalString (verb : Option String) (md5 ct : Option String)
    (expSec : Nat) (ext : String) (resource : String) : String :=
  (match verb with | some v => v | none => "") ++ "\n" ++
  (jsOr md5 "") ++ "\n" ++
  (jsOr ct "") ++ "\n" ++
  toString expSec ++ "\n" ++
  (ext ++ resource)

/-- Canonicalized resource, file.js line 119:
slash, bucket name, slash, percent-encoded object name. -/
def resourceOf (file : FileCtx) : String :=
  "/" ++ file.bucketName ++ "/" ++ encodeURIComponent file.name

/-- Host resolution, file.js line 118: the configured cname if truthy,
else the canonical storage host joined with the bucket name. -/
def hostOf (cfg : SignedUrlConfig) (file : FileCtx) : String :=
  jsOr cfg.cname ("https://storage.googleapis.com/" ++ file.bucketName)

/-- The full canonical string getSignedUrl signs, as a function of the
config and the receiver file. -/
def signedCanonical (cfg : SignedUrlConfig) (file : FileCtx) : String :=
  canonicalString (actionVerb cfg.action) cfg.contentMd5 cfg.contentType
    (jsRound cfg.expires) (extensionHeadersString cfg.extensionHeaders)
    (resourceOf file)

/-- URL assembly, file.js lines 158-190: the three mandatory query
parameters followed by the conditional ones. `responseContentDisposition`
is written by the promptSaveAs branch and then overwritten by the
responseDisposition branch when the latter is a string. -/
def assembleUrl (host name email : String) (expSec : Nat) (signature : String)
    (responseType promptSaveAs responseDisposition : Option String)
    (generation : Option Nat) : String :=
  let responseContentType :=
    match responseType with
    | some t => "&response-content-type=" ++ encodeURIComponent t
    | none => ""
  let dispFromPrompt :=
    match promptSaveAs with
    | some p => "&response-content-disposition=attachment; filename=\"" ++
        encodeURIComponent p ++ "\""
    | none => ""
  let responseContentDisposition :=
    match responseDisposition with
    | some d => "&response-content-disposition=" ++ encodeURIComponent d
    | none => dispFromPrompt
  let generationStr :=
    match generation with
    | some g => "&generation=" ++ toString g
    | none => ""
  host ++ "/" ++ name ++
    "?GoogleAccessId=" ++ email ++
    "&Expires=" ++ toString expSec ++
    "&Signature=" ++ encodeURIComponent signature ++
    responseContentType ++ responseContentDisposition ++ generationStr

/-- getSignedUrl, file.js lines 99-192. `now` is `Date.now()`, `signFn`
abstracts `crypto.createSign` applied to a private key and the canonical
string, `cred` is the credential provider result. Returns the events
performed and either an error or the signed URL. -/
def getSignedUrl (now : Nat) (signFn : String → String → String)
    (file : FileCtx) (cred : Except String Credentials)
    (cfg : SignedUrlConfig) : List SignEvent × Except SignErr String :=
  let expiresInSeconds := jsRound cfg.expires
  if cfg.expires < now then
    ([], Except.error (SignErr.validation "An expiration date cannot be in the past."))
  else
    let name := encodeURIComponent file.name
    let host := hostOf cfg file
    match cred with
    | Except.error msg => ([SignEvent.credLookup], Except.error (SignErr.signing msg))
    | Except.ok c =>
      if jsTruthyStr c.private_key = false || jsTruthyStr c.client_email = false then
        ([SignEvent.credLookup], Except.error (SignErr.signing
          "Could not find a `private_key` or `client_email`. Please verify you are authorized with these credentials available."))
      else
        let signature := signFn (jsOr c.private_key "") (signedCanonical cfg file)
        ([SignEvent.credLookup, SignEvent.sign], Except.ok
          (assembleUrl host name (jsOr c.client_email "") expiresInSeconds signature
            cfg.responseType cfg.promptSaveAs cfg.responseDisposition file.generation))

/-! Embedding of `MMResumableUpload.makeRequest` (index.js lines 11-33). -/

/-- Outgoing request options: the (possibly absent) header mapping and an
opaque remainder standing for every other field of the request. -/
structure ReqOpts where
  headers : Option (List (String × String))
  rest : String
deriving DecidableEq, Repr

/-- First-match lookup in a header list. -/
def lookupH : List (String × String) → String → Option String
  | [], _ => none
  | p :: ps, k => if p.1 = k then some p.2 else lookupH ps k

/-- JS `headers[k] = v` on an object modelled as an association list:
overwrite the entry when the key is present, append it otherwise. -/
def setHeader (hs : List (String × String)) (k v : String) : List (String × String) :=
  if hs.any (fun p => p.1 = k) then
    hs.map (fun p => if p.1 = k then (k, v) else p)
  else hs ++ [(k, v)]

/-- Header read on a request whose header object may be absent. -/
def getHeader (r : ReqOpts) (k : String) : Option String :=
  lookupH (match r.headers with | some hs => hs | none => []) k

/-- The header-injection step of the overridden makeRequest, index.js
lines 13-17: when `this.metadata.contentLength` is truthy (a number other
than 0), write `X-Upload-Content-Length` into `reqOpts.headers`, creating
the header object when absent; otherwise leave the request untouched. -/
def mmPrepareRequest (contentLength : Option Nat) (r : ReqOpts) : ReqOpts :=
  match contentLength with
  | some v =>
    if v ≠ 0 then
      { headers := some (setHeader (match r.headers with | some hs => hs | none => [])
          "X-Upload-Content-Length" (toString v)),
        rest := r.rest }
    else r
  | none => r

/-- An error value surfaced by the underlying transport: whether it is an
`Error` instance, its message, and its own enumerable fields. -/
structure RawErr where
  isErrorInstance : Bool
  message : String
  fields : List (String × String)
deriving DecidableEq, Repr

/-- What `processResponse` hands to the caller callback. -/
inductive CbOut where
  | err (e : RawErr)
  | ok (resp body : String)
deriving DecidableEq, Repr

/-- The normalization `new Errors.Error(err.message)` followed by
`Object.assign(error, err)`, index.js lines 25-26: a typed error carrying
the original message with the original fields copied onto it. -/
def normalizeError (e : RawErr) : RawErr :=
  { isErrorInstance := true, message := e.message, fields := e.fields }

/-- The `processResponse` callback of makeRequest, index.js lines 19-31.
In the non-Error branch the source constructs the normalized error at
lines 25-26 and then passes the original `err` to the callback at
line 27, leaving the constructed value unused. -/
def processResponse (err : Option RawErr) (resp body : String) : CbOut :=
  match err with
  | some e =>
    if e.isErrorInstance then CbOut.err e
    else
      let _error := normalizeError e
      CbOut.err e
  | none => CbOut.ok resp body

/-! Embedding of `createBucket` (index.js lines 91-113). -/

/-- A bucket descriptor from the listing or from creation. -/
structure Bucket where
  name : String
  meta : List (String × String)
deriving DecidableEq, Repr

/-- Outcome of createBucket: an existing bucket returned from a listing
page, or a creation call issued with the configured name and metadata. -/
inductive BucketResult where
  | found (b : Bucket)
  | created (name : String) (meta : List (String × String))
deriving DecidableEq, Repr

/-- The lodash findWhere call at index.js line 99: first bucket of the
page whose name equals the needle. -/
def findWhere : List Bucket → String → Option Bucket
  | [], _ => none
  | b :: bs, needle => if b.name = needle then some b else findWhere bs needle

/-- createBucket, index.js lines 91-113. The paginated listing is
modelled as the list of pages the storage client would return from the
current query onward; a continuation token exists exactly when further
pages remain. Scan the current page; on a match return that bucket; else
recurse on the remaining pages; with no pages left, issue the creation
call with the configured name and metadata. -/
def createBucket (needle : String) (meta : List (String × String)) :
    List (List Bucket) → BucketResult
  | [] => BucketResult.created needle meta
  | page :: rest =>
    match findWhere page needle with
    | some b => BucketResult.found b
    | none =>
      match rest with
      | [] => BucketResult.created needle meta
      | _ :: _ => createBucket needle meta rest

/-! Embedding of `readFile` (index.js lines 217-226). -/

/-- `opts.start || 0`: a falsy start (absent or 0) becomes 0. -/
def effStart (o : Option Nat) : Nat :=
  match o with
  | some v => if v = 0 then 0 else v
  | none => 0

/-- `opts.end || undefined`: a falsy end (absent or 0) becomes
`undefined`, an unbounded read. -/
def effEnd (o : Option Nat) : Option Nat :=
  match o with
  | some v => if v = 0 then none else some v
  | none => none

/-- The byte-range options readFile passes to `createReadStream` at
index.js line 221. -/
def readFileRange (start stop : Option Nat) : Nat × Option Nat :=
  (effStart start, effEnd stop)

/-! Specification-side definitions, written from the words of the spec,
for comparison against the source embedding. -/

/-- Extension-header emission as the amended claim words it: for each
header in insertion order, the name as supplied, a colon, the value and a
newline. -/
def specExtHeaders : List (String × String) → String
  | [] => ""
  | p :: ps => p.1 ++ ":" ++ p.2 ++ "\n" ++ specExtHeaders ps

/-- The signed-URL format stated by the spec: mandatory GoogleAccessId,
Expires and Signature parameters, then conditionally
response-content-type, then response-content-disposition (promptSaveAs
determines it unless responseDisposition is set, which overrides), then
generation, in exactly that order. -/
def specSignedUrlFormat (host encodedName email : String) (seconds : Nat)
    (signature : String)
    (responseType promptSaveAs responseDisposition : Option String)
    (generation : Option Nat) : String :=
  host ++ "/" ++ encodedName ++
  "?GoogleAccessId=" ++ email ++
  "&Expires=" ++ toString seconds ++
  "&Signature=" ++ encodeURIComponent signature ++
  (match responseType with
   | some t => "&response-content-type=" ++ encodeURIComponent t
   | none => "") ++
  (match responseDisposition, promptSaveAs with
   | some d, _ => "&response-content-disposition=" ++ encodeURIComponent d
   | none, some p =>
     "&response-content-disposition=attachment; filename=\"" ++
       encodeURIComponent p ++ "\""
   | none, none => "") ++
  (match generation with
   | some g => "&generation=" ++ toString g
   | none => "")

/-! Concrete fixtures used by witnesses and counterexamples. -/

/-- A minimal read config: expiry 1000 ms, nothing optional supplied. -/
def baseCfg : SignedUrlConfig :=
  { action := "read", expires := 1000, contentMd5 := none, contentType := none,
    extensionHeaders := none, cname := none, responseType := none,
    promptSaveAs := none, responseDisposition := none }

/-- A one-character file in a one-character bucket. -/
def testFile : FileCtx := { name := "o", bucketName := "b", generation := none }

/-- Credentials with both fields present and non-empty. -/
def testCred : Credentials := { private_key := some "K", client_email := some "E" }

/-- A signing oracle returning a fixed signature, standing for the
RSA-SHA256 computation. -/
def constSig : String → String → String := fun _ _ => "SIG"

/-! Helper lemmas. -/

/-- String concatenation is associative. -/
theorem strAppendAssoc (a b c : String) : a ++ b ++ c = a ++ (b ++ c) := by
  apply String.ext
  simp [String.data_append]

/-- The empty string is a right identity of concatenation. -/
theorem strAppendEmpty (a : String) : a ++ "" = a := by
  apply String.ext
  simp [String.data_append]

/-- Folding the extension-header accumulator over a list appends the
spec-side emission to the accumulator. -/
theorem extHeaders_foldl (hs : List (String × String)) (acc : String) :
    hs.foldl (fun a p => a ++ p.1 ++ ":" ++ p.2 ++ "\n") acc =
      acc ++ specExtHeaders hs := by
  induction hs generalizing acc with
  | nil => simp [specExtHeaders, strAppendEmpty]
  | cons p ps ih =>
    simp only [List.foldl_cons, specExtHeaders, ih]
    apply String.ext
    simp [String.data_append]

/-! Claim theorems. -/

/-- C1 (amended): getSignedUrl fails synchronously with the validation
error, before the credential provider is consulted and before any
signing, exactly when the expiry is strictly less than the current time;
whenever the expiry is greater than or equal to the current time, no
validation failure occurs. An expiry exactly equal to the current time
passes validation. -/
theorem getSignedUrl_expiry_validation (now : Nat)
    (sf : String → String → String) (file : FileCtx)
    (cred : Except String Credentials) (cfg : SignedUrlConfig) :
    (cfg.expires < now →
      getSignedUrl now sf file cred cfg =
        ([], Except.error
          (SignErr.validation "An expiration date cannot be in the past."))) ∧
    (now ≤ cfg.expires →
      ∀ m, (getSignedUrl now sf file cred cfg).2 ≠
        Except.error (SignErr.validation m)) := by
  constructor
  · intro h
    simp [getSignedUrl, h]
  · intro h m
    unfold getSignedUrl
    rw [if_neg (Nat.not_lt.mpr h)]
    cases cred with
    | error msg => simp
    | ok c =>
      by_cases hk : jsTruthyStr c.private_key = false ∨ jsTruthyStr c.client_email = false
      · rcases hk with hk | hk <;> simp [hk]
      · push_neg at hk
        simp only [Bool.not_eq_false] at hk
        simp [hk.1, hk.2]

/-- C1 witness: with the current time 2000 and expiry 1000 the call
returns the validation error with no events. -/
theorem getSignedUrl_expiry_validation_witness :
    getSignedUrl 2000 constSig testFile (Except.ok testCred) baseCfg =
      ([], Except.error
        (SignErr.validation "An expiration date cannot be in the past.")) :=
  (getSignedUrl_expiry_validation 2000 constSig testFile
    (Except.ok testCred) baseCfg).1 (by decide)

/-- C1 counterexample: with the current time equal to the expiry
(1000 = 1000) the expiry is not strictly greater than the current time,
yet no validation failure occurs — signing succeeds and returns a URL. -/
theorem getSignedUrl_expiry_boundary_counterexample :
    ¬ (1000 : Nat) > 1000 ∧
    (getSignedUrl 1000 constSig testFile (Except.ok testCred) baseCfg).2 =
      Except.ok
        "https://storage.googleapis.com/b/o?GoogleAccessId=E&Expires=1&Signature=SIG" :=
  ⟨by decide, rfl⟩

/-- C2 (amended): the canonicalized extension headers are emitted in the
insertion order of the supplied mapping, each as the header name exactly
as supplied (no lowercasing) followed by a colon, the value and a
newline; the empty string when no headers are supplied. -/
theorem extensionHeaders_insertion_order (hs : List (String × String)) :
    extensionHeadersString (some hs) = specExtHeaders hs ∧
    extensionHeadersString none = "" := by
  constructor
  · show hs.foldl (fun a p => a ++ p.1 ++ ":" ++ p.2 ++ "\n") "" = specExtHeaders hs
    rw [extHeaders_foldl]
    apply String.ext
    simp [String.data_append]
  · rfl

/-- C2 counterexample: the header name X-Goog-Acl is emitted verbatim,
not lowercased, so the canonicalized form differs from the lowercased
form the claim requires. -/
theorem extensionHeaders_lowercase_counterexample :
    extensionHeadersString (some [("X-Goog-Acl", "private")]) =
      "X-Goog-Acl:private\n" ∧
    "X-Goog-Acl:private\n" ≠ "x-goog-acl:private\n" :=
  ⟨rfl, by decide⟩

/-- C4: for action read, no md5, no type, no extension headers, bucket
"bucket", object "obj.txt" and expiry 1700000000000 ms, the canonical
string is exactly the five newline-joined fields
GET, empty, empty, 1700000000, /bucket/obj.txt; and in general absent
contentMd5 and contentType contribute exactly what explicit empty
strings would, never the word undefined. -/
theorem canonical_read_concrete :
    signedCanonical
      { action := "read", expires := 1700000000000, contentMd5 := none,
        contentType := none, extensionHeaders := none, cname := none,
        responseType := none, promptSaveAs := none, responseDisposition := none }
      { name := "obj.txt", bucketName := "bucket", generation := none } =
      "GET\n\n\n1700000000\n/bucket/obj.txt" ∧
    ∀ (verb : Option String) (expSec : Nat) (ext res : String),
      canonicalString verb none none expSec ext res =
        canonicalString verb (some "") (some "") expSec ext res := by
  constructor
  · rfl
  · intro verb expSec ext res
    rfl

/-- An untyped transport failure: not an Error instance, with a message
and an own field. -/
def rawBoom : RawErr :=
  { isErrorInstance := false, message := "socket failure",
    fields := [("code", "500")] }

/-- C7: the code constructs the normalized typed error from a non-Error
transport failure but then delivers the original untyped value to the
callback; at this failing input the delivered error is the raw untyped
object, not the normalized typed error the code built. -/
theorem processResponse_delivers_raw_error :
    rawBoom.isErrorInstance = false ∧
    processResponse (some rawBoom) "" "" = CbOut.err rawBoom ∧
    (normalizeError rawBoom).isErrorInstance = true ∧
    (normalizeError rawBoom).message = rawBoom.message ∧
    (normalizeError rawBoom).fields = rawBoom.fields ∧
    processResponse (some rawBoom) "" "" ≠ CbOut.err (normalizeError rawBoom) := by
  refine ⟨rfl, rfl, rfl, rfl, rfl, ?_⟩
  decide

/-- C10: in the byte-range options readFile passes to createReadStream,
an absent start and a zero start both yield byte 0, an absent end and a
zero end both yield an unbounded read, and no range can end at offset 0. -/
theorem readFileRange_falsy (s e : Option Nat) :
    readFileRange none e = readFileRange (some 0) e ∧
    readFileRange s none = readFileRange s (some 0) ∧
    (readFileRange none e).1 = 0 ∧
    (readFileRange s none).2 = none ∧
    (readFileRange s e).2 ≠ some 0 := by
  refine ⟨rfl, rfl, rfl, rfl, ?_⟩
  show effEnd e ≠ some 0
  cases e with
  | none => simp [effEnd]
  | some v =>
    by_cases hv : v = 0
    · simp [effEnd, hv]
    · simp [effEnd, hv]

/-- Writing a header makes it readable back with the written value. -/
theorem lookupH_setHeader_self (hs : List (String × String)) (k v : String) :
    lookupH (setHeader hs k v) k = some v := by
  unfold setHeader
  by_cases h : hs.any (fun p => p.1 = k) = true
  · rw [if_pos h]
    induction hs with
    | nil => simp at h
    | cons p ps ih =>
      by_cases hp : p.1 = k
      · simp [lookupH, hp]
      · simp only [List.any_cons, hp, decide_False, Bool.false_or] at h
        simp [lookupH, hp, ih h]
  · rw [if_neg h]
    induction hs with
    | nil => simp [lookupH]
    | cons p ps ih =>
      simp only [List.any_cons, Bool.or_eq_true, not_or] at h
      have hp : ¬ p.1 = k := by
        intro hk
        exact h.1 (by simp [hk])
      simp only [List.cons_append, lookupH, if_neg hp]
      exact ih (by simp [h.2])

/-- Replacing the entries under one key leaves lookups under any other
key unchanged. -/
theorem lookupH_map_replace (hs : List (String × String)) (k v k' : String)
    (h : k' ≠ k) :
    lookupH (hs.map (fun p => if p.1 = k then (k, v) else p)) k' =
      lookupH hs k' := by
  induction hs with
  | nil => rfl
  | cons p ps ih =>
    by_cases hp : p.1 = k
    · have hne : k ≠ k' := fun hk => h hk.symm
      have hpk : p.1 ≠ k' := by
        rw [hp]
        exact hne
      simp [lookupH, hp, hne, hpk, ih]
    · simp [lookupH, hp, ih]

/-- Appending an entry under one key leaves lookups under any other key
unchanged. -/
theorem lookupH_append_single (hs : List (String × String)) (k v k' : String)
    (h : k' ≠ k) : lookupH (hs ++ [(k, v)]) k' = lookupH hs k' := by
  induction hs with
  | nil =>
    have hne : k ≠ k' := fun hk => h hk.symm
    simp [lookupH, hne]
  | cons p ps ih =>
    by_cases hp : p.1 = k'
    · simp [lookupH, hp]
    · simp [lookupH, hp, ih]

/-- Writing a header leaves every other header unchanged. -/
theorem lookupH_setHeader_other (hs : List (String × String)) (k v k' : String)
    (h : k' ≠ k) : lookupH (setHeader hs k v) k' = lookupH hs k' := by
  unfold setHeader
  by_cases ha : hs.any (fun p => p.1 = k) = true
  · rw [if_pos ha]
    exact lookupH_map_replace hs k v k' h
  · rw [if_neg ha]
    exact lookupH_append_single hs k v k' h

/-- C6 (amended): when metadata.contentLength is present and non-zero,
every request passed through the overridden makeRequest — hence every
attempt, retries included — carries the X-Upload-Content-Length header
with that value, every header under a different name is preserved
unchanged, and the rest of the request is untouched. -/
theorem mmPrepareRequest_injects (v : Nat) (hv : v ≠ 0) (r : ReqOpts) :
    getHeader (mmPrepareRequest (some v) r) "X-Upload-Content-Length" =
      some (toString v) ∧
    (∀ k, k ≠ "X-Upload-Content-Length" →
      getHeader (mmPrepareRequest (some v) r) k = getHeader r k) ∧
    (mmPrepareRequest (some v) r).rest = r.rest ∧
    (∀ attempts : List ReqOpts, ∀ q ∈ attempts,
      getHeader (mmPrepareRequest (some v) q) "X-Upload-Content-Length" =
        some (toString v)) := by
  have inject : ∀ q : ReqOpts,
      getHeader (mmPrepareRequest (some v) q) "X-Upload-Content-Length" =
        some (toString v) := by
    intro q
    simp only [mmPrepareRequest, if_pos hv, getHeader]
    exact lookupH_setHeader_self _ _ _
  refine ⟨inject r, ?_, ?_, fun attempts q _ => inject q⟩
  · intro k hk
    simp only [mmPrepareRequest, if_pos hv, getHeader]
    exact lookupH_setHeader_other _ _ _ _ hk
  · simp [mmPrepareRequest, if_pos hv]

/-- C6 witness: a request with an existing Accept header and
contentLength 1024 carries X-Upload-Content-Length 1024 and keeps the
Accept header. -/
theorem mmPrepareRequest_injects_witness :
    getHeader
      (mmPrepareRequest (some 1024)
        { headers := some [("Accept", "*")], rest := "r" })
      "X-Upload-Content-Length" = some (toString 1024) ∧
    getHeader
      (mmPrepareRequest (some 1024)
        { headers := some [("Accept", "*")], rest := "r" })
      "Accept" = getHeader { headers := some [("Accept", "*")], rest := "r" }
        "Accept" :=
  ⟨(mmPrepareRequest_injects 1024 (by decide)
      { headers := some [("Accept", "*")], rest := "r" }).1,
   (mmPrepareRequest_injects 1024 (by decide)
      { headers := some [("Accept", "*")], rest := "r" }).2.1 "Accept" (by decide)⟩

/-- C6 counterexample: a request whose metadata.contentLength is present
with value 0 leaves the request untouched — the JS truthiness guard skips
the injection — so the outgoing request does not carry
X-Upload-Content-Length with the supplied value. -/
theorem mmPrepareRequest_zero_counterexample :
    mmPrepareRequest (some 0) { headers := some [("Accept", "*")], rest := "r" } =
      { headers := some [("Accept", "*")], rest := "r" } ∧
    getHeader
      (mmPrepareRequest (some 0)
        { headers := some [("Accept", "*")], rest := "r" })
      "X-Upload-Content-Length" ≠ some (toString 0) := by
  refine ⟨rfl, ?_⟩
  decide

/-- The URL assembly of the source coincides with the format stated by
the spec, for every combination of the conditional parameters. -/
theorem assembleUrl_eq_spec (host name email : String) (expSec : Nat)
    (sig : String) (rt psa rd : Option String) (g : Option Nat) :
    assembleUrl host name email expSec sig rt psa rd g =
      specSignedUrlFormat host name email expSec sig rt psa rd g := by
  unfold assembleUrl specSignedUrlFormat
  cases rt <;> cases rd <;> cases psa <;> cases g <;> rfl

/-- Success path of getSignedUrl: with credentials present and a
non-past expiry, both events fire and the URL is assembled from the
host, the encoded name, the client email, the rounded expiry and the
signature over the canonical string. -/
theorem getSignedUrl_success (now : Nat) (sf : String → String → String)
    (file : FileCtx) (c : Credentials) (cfg : SignedUrlConfig)
    (hk : jsTruthyStr c.private_key = true)
    (he : jsTruthyStr c.client_email = true)
    (hexp : now ≤ cfg.expires) :
    getSignedUrl now sf file (Except.ok c) cfg =
      ([SignEvent.credLookup, SignEvent.sign], Except.ok
        (assembleUrl (hostOf cfg file) (encodeURIComponent file.name)
          (jsOr c.client_email "") (jsRound cfg.expires)
          (sf (jsOr c.private_key "") (signedCanonical cfg file))
          cfg.responseType cfg.promptSaveAs cfg.responseDisposition
          file.generation)) := by
  unfold getSignedUrl
  rw [if_neg (Nat.not_lt.mpr hexp)]
  simp [hk, he]

/-- C3: every successful signing returns a URL of the bit-exact shape
the spec states — host (cname verbatim when configured, else the
canonical storage host with the bucket name), slash, encoded object
name, then GoogleAccessId, Expires and Signature, then conditionally
response-content-type, then response-content-disposition (promptSaveAs
determines it unless responseDisposition is set, which overrides), then
generation, in exactly that order. -/
theorem getSignedUrl_url_shape (now : Nat) (sf : String → String → String)
    (file : FileCtx) (c : Credentials) (cfg : SignedUrlConfig)
    (hk : jsTruthyStr c.private_key = true)
    (he : jsTruthyStr c.client_email = true)
    (hexp : now ≤ cfg.expires) :
    (getSignedUrl now sf file (Except.ok c) cfg).2 =
      Except.ok (specSignedUrlFormat
        (jsOr cfg.cname ("https://storage.googleapis.com/" ++ file.bucketName))
        (encodeURIComponent file.name) (jsOr c.client_email "")
        (jsRound cfg.expires)
        (sf (jsOr c.private_key "") (signedCanonical cfg file))
        cfg.responseType cfg.promptSaveAs cfg.responseDisposition
        file.generation) := by
  rw [getSignedUrl_success now sf file c cfg hk he hexp]
  rw [assembleUrl_eq_spec]
  rfl

/-- A config exercising every conditional URL parameter. -/
def richCfg : SignedUrlConfig :=
  { action := "write", expires := 5000, contentMd5 := some "bWQ1",
    contentType := some "text/plain",
    extensionHeaders := some [("x-goog-acl", "private")],
    cname := some "https://cdn.example.com",
    responseType := some "text/plain", promptSaveAs := some "save as.txt",
    responseDisposition := none }

/-- A file with a name needing encoding and a generation. -/
def richFile : FileCtx :=
  { name := "dir/obj 1.txt", bucketName := "bkt", generation := some 42 }

/-- C3 witness: the URL-shape theorem applied at a concrete request with
a cname, a response type, a promptSaveAs and a generation. -/
theorem getSignedUrl_url_shape_witness :
    (getSignedUrl 0 constSig richFile (Except.ok testCred) richCfg).2 =
      Except.ok (specSignedUrlFormat
        (jsOr richCfg.cname
          ("https://storage.googleapis.com/" ++ richFile.bucketName))
        (encodeURIComponent richFile.name) (jsOr testCred.client_email "")
        (jsRound richCfg.expires)
        (constSig (jsOr testCred.private_key "")
          (signedCanonical richCfg richFile))
        richCfg.responseType richCfg.promptSaveAs
        richCfg.responseDisposition richFile.generation) :=
  getSignedUrl_url_shape 0 constSig richFile testCred richCfg
    (by decide) (by decide) (by decide)

/-- The base config with expiry 1500 ms. -/
def cfg1500 : SignedUrlConfig := { baseCfg with expires := 1500 }

/-- C5 (amended): the Expires value placed in the canonical string and
the signed URL is Math.round of the millisecond expiry over 1000 —
floor of (ms + 500) / 1000, computed from the same expiry field that
was validated against the current time; it coincides with
floor(ms / 1000) exactly when the millisecond remainder is below 500,
and exceeds it by one otherwise. -/
theorem getSignedUrl_expires_seconds (now : Nat)
    (sf : String → String → String) (file : FileCtx) (c : Credentials)
    (cfg : SignedUrlConfig) (hk : jsTruthyStr c.private_key = true)
    (he : jsTruthyStr c.client_email = true) (hexp : now ≤ cfg.expires) :
    (getSignedUrl now sf file (Except.ok c) cfg).2 =
      Except.ok (assembleUrl (hostOf cfg file) (encodeURIComponent file.name)
        (jsOr c.client_email "") (jsRound cfg.expires)
        (sf (jsOr c.private_key "") (signedCanonical cfg file))
        cfg.responseType cfg.promptSaveAs cfg.responseDisposition
        file.generation) ∧
    signedCanonical cfg file =
      canonicalString (actionVerb cfg.action) cfg.contentMd5 cfg.contentType
        (jsRound cfg.expires) (extensionHeadersString cfg.extensionHeaders)
        (resourceOf file) ∧
    jsRound cfg.expires = (cfg.expires + 500) / 1000 ∧
    (cfg.expires % 1000 < 500 → jsRound cfg.expires = cfg.expires / 1000) ∧
    (500 ≤ cfg.expires % 1000 →
      jsRound cfg.expires = cfg.expires / 1000 + 1) := by
  refine ⟨by rw [getSignedUrl_success now sf file c cfg hk he hexp], rfl, rfl,
    ?_, ?_⟩
  · intro h
    unfold jsRound
    omega
  · intro h
    unfold jsRound
    omega

/-- C5 witness: at expiry 1500 ms the remainder is 500, so the Expires
value is floor(1500 / 1000) + 1 = 2. -/
theorem getSignedUrl_expires_seconds_witness :
    500 ≤ cfg1500.expires % 1000 ∧
    jsRound cfg1500.expires = cfg1500.expires / 1000 + 1 :=
  ⟨by decide,
   (getSignedUrl_expires_seconds 0 constSig testFile testCred cfg1500
      (by decide) (by decide) (by decide)).2.2.2.2 (by decide)⟩

/-- C5 counterexample: at expiry 1500 ms the URL carries Expires=2 while
floor(1500 / 1000) = 1, so the Expires value is not the floor. -/
theorem expires_floor_counterexample :
    (getSignedUrl 0 constSig testFile (Except.ok testCred) cfg1500).2 =
      Except.ok
        "https://storage.googleapis.com/b/o?GoogleAccessId=E&Expires=2&Signature=SIG" ∧
    cfg1500.expires / 1000 = 1 ∧
    jsRound cfg1500.expires ≠ cfg1500.expires / 1000 :=
  ⟨rfl, by decide, by decide⟩

/-- The base config with the unknown action list. -/
def listCfg : SignedUrlConfig := { baseCfg with action := "list" }

/-- C8 (amended): the action table maps read to GET, write to PUT and
delete to DELETE; any other value maps to no verb at all, and signing
proceeds anyway — the canonical string gets an empty ACTION field (the
JS join stringifies undefined to the empty string) and a URL is still
produced, with no configuration error raised. -/
theorem actionVerb_mapping (a : String)
    (h1 : a ≠ "read") (h2 : a ≠ "write") (h3 : a ≠ "delete") :
    actionVerb "read" = some "GET" ∧ actionVerb "write" = some "PUT" ∧
    actionVerb "delete" = some "DELETE" ∧ actionVerb a = none ∧
    (∀ (cfg : SignedUrlConfig) (file : FileCtx), cfg.action = a →
      signedCanonical cfg file =
        canonicalString none cfg.contentMd5 cfg.contentType
          (jsRound cfg.expires) (extensionHeadersString cfg.extensionHeaders)
          (resourceOf file)) ∧
    (∀ (now : Nat) (sf : String → String → String) (file : FileCtx)
       (c : Credentials) (cfg : SignedUrlConfig), cfg.action = a →
      jsTruthyStr c.private_key = true → jsTruthyStr c.client_email = true →
      now ≤ cfg.expires →
      (getSignedUrl now sf file (Except.ok c) cfg).2 =
        Except.ok (assembleUrl (hostOf cfg file) (encodeURIComponent file.name)
          (jsOr c.client_email "") (jsRound cfg.expires)
          (sf (jsOr c.private_key "") (signedCanonical cfg file))
          cfg.responseType cfg.promptSaveAs cfg.responseDisposition
          file.generation)) := by
  have hva : actionVerb a = none := by
    simp [actionVerb, h1, h2, h3]
  refine ⟨rfl, rfl, rfl, hva, ?_, ?_⟩
  · intro cfg file hcfg
    unfold signedCanonical
    rw [hcfg, hva]
  · intro now sf file c cfg hcfg hk he hexp
    rw [getSignedUrl_success now sf file c cfg hk he hexp]

/-- C8 witness: the action list maps to no verb and the canonical string
of a list request has an empty ACTION field. -/
theorem actionVerb_mapping_witness :
    actionVerb "list" = none ∧
    signedCanonical listCfg testFile =
      canonicalString none listCfg.contentMd5 listCfg.contentType
        (jsRound listCfg.expires)
        (extensionHeadersString listCfg.extensionHeaders)
        (resourceOf testFile) :=
  ⟨(actionVerb_mapping "list" (by decide) (by decide) (by decide)).2.2.2.1,
   (actionVerb_mapping "list" (by decide) (by decide) (by decide)).2.2.2.2.1
     listCfg testFile rfl⟩

/-- C8 counterexample: a request with the unknown action list is not
rejected — signing succeeds, returning a URL, and the canonical string
carries an empty ACTION field rather than any error. -/
theorem invalid_action_no_error_counterexample :
    actionVerb "list" = none ∧
    (getSignedUrl 0 constSig testFile (Except.ok testCred) listCfg).2 =
      Except.ok
        "https://storage.googleapis.com/b/o?GoogleAccessId=E&Expires=1&Signature=SIG" ∧
    signedCanonical listCfg testFile = "\n\n\n1\n/b/o" :=
  ⟨rfl, rfl, rfl⟩

/-- A successful page scan returns a bucket of the page with the
searched name. -/
theorem findWhere_eq_some (page : List Bucket) (needle : String) (b : Bucket)
    (h : findWhere page needle = some b) : b ∈ page ∧ b.name = needle := by
  induction page with
  | nil => simp [findWhere] at h
  | cons x xs ih =>
    simp only [findWhere] at h
    by_cases hx : x.name = needle
    · rw [if_pos hx] at h
      injection h with h
      subst h
      exact ⟨List.mem_cons_self x xs, hx⟩
    · rw [if_neg hx] at h
      rcases ih h with ⟨hm, hn⟩
      exact ⟨List.mem_cons_of_mem x hm, hn⟩

/-- A failed page scan means no bucket of the page has the searched
name. -/
theorem findWhere_eq_none (page : List Bucket) (needle : String)
    (h : findWhere page needle = none) : ∀ b ∈ page, b.name ≠ needle := by
  induction page with
  | nil =>
    intro b hb
    simp at hb
  | cons x xs ih =>
    simp only [findWhere] at h
    by_cases hx : x.name = needle
    · rw [if_pos hx] at h
      exact absurd h (by simp)
    · rw [if_neg hx] at h
      intro b hb
      rcases List.mem_cons.mp hb with rfl | hb
      · exact hx
      · exact ih h b hb

/-- C9: createBucket issues the creation call exactly when every listing
page has been scanned without a name match, and otherwise returns a
bucket with the configured name found on one of the pages. -/
theorem createBucket_scans_all_pages (needle : String)
    (meta : List (String × String)) (pages : List (List Bucket)) :
    (createBucket needle meta pages = BucketResult.created needle meta ↔
      ∀ page ∈ pages, ∀ b ∈ page, b.name ≠ needle) ∧
    (∀ b, createBucket needle meta pages = BucketResult.found b →
      b.name = needle ∧ ∃ page ∈ pages, b ∈ page) := by
  induction pages with
  | nil =>
    refine ⟨⟨fun _ page hp => absurd hp (by simp), fun _ => rfl⟩, ?_⟩
    intro b hb
    simp [createBucket] at hb
  | cons page rest ih =>
    cases hf : findWhere page needle with
    | some b0 =>
      have hb0 := findWhere_eq_some page needle b0 hf
      constructor
      · constructor
        · intro hc
          simp [createBucket, hf] at hc
        · intro hall
          exact absurd hb0.2 (hall page (List.mem_cons_self page rest) b0 hb0.1)
      · intro b hb
        simp only [createBucket, hf] at hb
        injection hb with hb
        subst hb
        exact ⟨hb0.2, page, List.mem_cons_self page rest, hb0.1⟩
    | none =>
      have hnone := findWhere_eq_none page needle hf
      cases rest with
      | nil =>
        constructor
        · constructor
          · intro _ p hp b hb
            rcases List.mem_cons.mp hp with rfl | hp
            · exact hnone b hb
            · exact absurd hp (by simp)
          · intro _
            simp [createBucket, hf]
        · intro b hb
          simp [createBucket, hf] at hb
      | cons r rs =>
        constructor
        · constructor
          · intro hc p hp b hb
            rcases List.mem_cons.mp hp with rfl | hp
            · exact hnone b hb
            · have hrec : createBucket needle meta (r :: rs) =
                  BucketResult.created needle meta := by
                simpa [createBucket, hf] using hc
              exact ih.1.mp hrec p hp b hb
          · intro hall
            have hrec : createBucket needle meta (r :: rs) =
                BucketResult.created needle meta :=
              ih.1.mpr (fun p hp b hb =>
                hall p (List.mem_cons_of_mem page hp) b hb)
            simpa [createBucket, hf] using hrec
        · intro b hb
          have hrec : createBucket needle meta (r :: rs) =
              BucketResult.found b := by
            simpa [createBucket, hf] using hb
          rcases ih.2 b hrec with ⟨hn, p, hp, hbp⟩
          exact ⟨hn, p, List.mem_cons_of_mem page hp, hbp⟩

/-- C9 witness: when the searched name appears on no page, the creation
call is issued with the configured name and metadata. -/
theorem createBucket_scans_all_pages_witness :
    createBucket "b" [("location", "EU")]
      [[{ name := "a", meta := [] }], [{ name := "c", meta := [] }]] =
      BucketResult.created "b" [("location", "EU")] :=
  (createBucket_scans_all_pages "b" [("location", "EU")]
    [[{ name := "a", meta := [] }], [{ name := "c", meta := [] }]]).1.mpr
    (by decide)

end GCE
